import Mathlib

/-!
Verification of the `patharg` crate (`src/lib.rs`): the `InputArg` /
`OutputArg` abstraction that treats a lone hyphen command-line argument as
the standard input/output stream and any other argument as a file path.

Modelling conventions (Unix platform):

* Raw platform text (`OsString` / `PathBuf` contents) is a byte sequence,
  embedded as `List Nat` (each entry a byte value).
* `arg == Path::new("-")` in `from_arg` is `std::path::Path` equality,
  which compares the *normalized component sequences* of the two paths
  (`Path::components`): repeated separators collapse, interior `.`
  components vanish, a trailing separator is ignored, and a leading `.`
  survives as a `CurDir` component.  `components` below implements that
  parse for Unix byte strings.
* `Path::display()` (used by the `Display` impls for the `Path` variant)
  performs a lossy UTF-8 decode: invalid sequences are replaced, maximal
  valid subpart by maximal valid subpart, with U+FFFD (bytes
  `EF BF BD`).  `utf8Lossy` below implements that decoding at the byte
  level, and `utf8Valid` the validation used by `str`/`Path::to_str`.
* Fallible operations return `Option`/`Except`; the serde `Serialize`
  impls return `Except Unit Bytes` (`.error ()` = encoding error).
* I/O is modelled by an explicit environment `Env` carrying the bytes
  available on standard input and a partial map from paths to file
  contents.
-/

namespace Patharg

/-- Raw platform text: a sequence of bytes (Unix `OsStr` contents). -/
abbrev Bytes := List Nat

/-- The sentinel token: the single ASCII hyphen, byte 45. -/
def dashBytes : Bytes := [45]

/-- One component of a normalized path, after `std::path::Path::components`
(Unix: no `Prefix` component). Variant order matches the declaration order
of the remaining `std::path::Component` variants, which the derived `Ord`
uses. -/
inductive Component where
  | rootDir : Component
  | curDir : Component
  | parentDir : Component
  | normal : Bytes → Component
deriving DecidableEq, Repr

/-- Split a byte string at every `/` (byte 47); separators are dropped and
empty chunks between adjacent separators are kept (they are filtered out
during component classification, as `Path::components` skips them). -/
def splitOnSep (l : Bytes) : List Bytes :=
  l.foldr
    (fun b acc =>
      if b = 47 then [] :: acc
      else
        match acc with
        | [] => [[b]]
        | s :: ss => (b :: s) :: ss)
    [[]]

/-- Classify one chunk between separators: empty chunks and `.` chunks are
skipped, `..` is `ParentDir`, anything else is a `Normal` component. -/
def classifyChunk (c : Bytes) : Option Component :=
  if c = [] then none
  else if c = [46] then none
  else if c = [46, 46] then some Component.parentDir
  else some (Component.normal c)

/-- The normalized component sequence of a Unix path byte string, following
`std::path::Path::components`: a leading `/` yields `RootDir`; a relative
path whose first chunk is exactly `.` yields a leading `CurDir`; every
other non-empty, non-`.` chunk yields `ParentDir` or `Normal`. -/
def components (b : Bytes) : List Component :=
  let chunks := splitOnSep b
  let root := b.head? = some 47
  let includeCur := ¬ (b.head? = some 47) ∧ chunks.head? = some [46]
  (if root then [Component.rootDir] else []) ++
    (if includeCur then [Component.curDir] else []) ++
    chunks.filterMap classifyChunk

/-- Rust `Path`/`PathBuf` equality (`PartialEq for Path`): the normalized
component sequences coincide. -/
def pathRustEq (p q : Bytes) : Bool := decide (components p = components q)

/-- Is `b` a UTF-8 continuation byte (`0x80..=0xBF`)? -/
def contByte (b : Nat) : Bool := decide (128 ≤ b ∧ b ≤ 191)

/-- Valid ranges of the second byte of a three-byte UTF-8 sequence with
lead byte `b` (per `core::str::validations`): `E0` requires `A0..=BF`,
`ED` requires `80..=9F`, the rest require an ordinary continuation. -/
def snd3Ok (b b2 : Nat) : Bool :=
  if b = 224 then decide (160 ≤ b2 ∧ b2 ≤ 191)
  else if b = 237 then decide (128 ≤ b2 ∧ b2 ≤ 159)
  else contByte b2

/-- Valid ranges of the second byte of a four-byte UTF-8 sequence with lead
byte `b`: `F0` requires `90..=BF`, `F4` requires `80..=8F`, the rest
require an ordinary continuation. -/
def snd4Ok (b b2 : Nat) : Bool :=
  if b = 240 then decide (144 ≤ b2 ∧ b2 ≤ 191)
  else if b = 244 then decide (128 ≤ b2 ∧ b2 ≤ 143)
  else contByte b2

/-- The UTF-8 encoding of U+FFFD REPLACEMENT CHARACTER. -/
def replacementBytes : Bytes := [239, 191, 189]

/-- The `UTF8_CHAR_WIDTH` table of `core::str`: the number of bytes of a
UTF-8 sequence led by byte `b`, with 0 for bytes that can never lead
(continuations, the overlong leads `C0`/`C1`, and `F5..`). -/
def utf8CharWidth (b : Nat) : Nat :=
  if b ≤ 127 then 1
  else if 194 ≤ b ∧ b ≤ 223 then 2
  else if 224 ≤ b ∧ b ≤ 239 then 3
  else if 240 ≤ b ∧ b ≤ 244 then 4
  else 0

/-- Decode one UTF-8 sequence led by `b` with the following bytes `rest`,
as one iteration of `core::str`'s `run_utf8_validation` loop: the result
is `(consumed, ok)` where `consumed` counts the input bytes this step
consumes (including `b`) and `ok` tells whether they form a well-formed
scalar.  On an error `consumed` is the length of the rejected maximal
subpart (the `error_len` of `Utf8Error`): 1 for a bad lead or a bad second
byte, the length of the valid prefix when a later byte is wrong or the
input ends early. -/
def utf8Decode1 (b : Nat) (rest : List Nat) : Nat × Bool :=
  let w := utf8CharWidth b
  if w = 1 then (1, true)
  else if w = 2 then
    match rest.head? with
    | none => (1, false)
    | some b2 => if contByte b2 then (2, true) else (1, false)
  else if w = 3 then
    match rest.head? with
    | none => (1, false)
    | some b2 =>
      if snd3Ok b b2 then
        match rest[1]? with
        | none => (2, false)
        | some b3 => if contByte b3 then (3, true) else (2, false)
      else (1, false)
  else if w = 4 then
    match rest.head? with
    | none => (1, false)
    | some b2 =>
      if snd4Ok b b2 then
        match rest[1]? with
        | none => (2, false)
        | some b3 =>
          if contByte b3 then
            match rest[2]? with
            | none => (3, false)
            | some b4 => if contByte b4 then (4, true) else (3, false)
          else (2, false)
      else (1, false)
  else (1, false)

/-- Fuel-driven validation loop: run `utf8Decode1` over the input until it
is exhausted.  Every step consumes at least the lead byte, so fuel equal
to the input length (as `utf8Valid` supplies) is never exhausted. -/
def utf8ValidF : Nat → List Nat → Bool
  | _, [] => true
  | 0, _ :: _ => false
  | fuel + 1, b :: rest =>
    let s := utf8Decode1 b rest
    s.2 && utf8ValidF fuel (rest.drop (s.1 - 1))

/-- UTF-8 validity of a byte sequence, as checked by
`core::str::from_utf8` (hence by `Path::to_str`). -/
def utf8Valid (l : List Nat) : Bool := utf8ValidF l.length l

/-- Fuel-driven lossy decoding loop, following Rust's `Utf8Chunks`
substitution-of-maximal-subparts policy (what `Path::display()` and
`to_string_lossy` do): a well-formed scalar is copied through verbatim; an
error's rejected subpart is replaced by one U+FFFD and decoding resumes at
the offending byte. -/
def utf8LossyF : Nat → List Nat → List Nat
  | _, [] => []
  | 0, _ :: _ => []
  | fuel + 1, b :: rest =>
    let s := utf8Decode1 b rest
    if s.2 then (b :: rest.take (s.1 - 1)) ++ utf8LossyF fuel (rest.drop (s.1 - 1))
    else replacementBytes ++ utf8LossyF fuel (rest.drop (s.1 - 1))

/-- Lossy UTF-8 decoding re-encoded as bytes: the text `Path::display()`
produces for a path with these content bytes. -/
def utf8Lossy (l : List Nat) : List Nat := utf8LossyF l.length l

/-- Validated input decodes to itself: a well-formed step copies exactly
the bytes it consumed, so lossy decoding is the identity on valid UTF-8.
This is why the default rendering of a `Path` variant holding valid UTF-8
reproduces its bytes. -/
theorem utf8ValidF_lossyF_id (fuel : Nat) (l : List Nat) (h : utf8ValidF fuel l = true) :
    utf8LossyF fuel l = l := by
  induction fuel generalizing l with
  | zero =>
    cases l with
    | nil => rfl
    | cons b rest => simp [utf8ValidF] at h
  | succ fuel ih =>
    cases l with
    | nil => rfl
    | cons b rest =>
      simp only [utf8ValidF, Bool.and_eq_true] at h
      simp only [utf8LossyF, if_pos h.1, ih _ h.2, List.cons_append]
      rw [List.take_append_drop]

/-- Lossy decoding is the identity on valid UTF-8 byte sequences. -/
theorem utf8Valid_lossy_id (l : List Nat) (h : utf8Valid l = true) : utf8Lossy l = l :=
  utf8ValidF_lossyF_id l.length l h

/-- Byte-lexicographic ordering of `OsStr` contents (`Ord for OsStr`:
slice comparison of the underlying bytes). -/
def bytesCmp : Bytes → Bytes → Ordering
  | [], [] => Ordering.eq
  | [], _ :: _ => Ordering.lt
  | _ :: _, [] => Ordering.gt
  | a :: l₁, b :: l₂ =>
    if a < b then Ordering.lt
    else if b < a then Ordering.gt
    else bytesCmp l₁ l₂

/-- The discriminant rank of a component in the declared variant order of
`std::path::Component` (with the Windows-only `Prefix` variant absent). -/
def componentRank : Component → Nat
  | Component.rootDir => 0
  | Component.curDir => 1
  | Component.parentDir => 2
  | Component.normal _ => 3

/-- Derived `Ord` on `std::path::Component`: discriminant order first, and
byte-lexicographic comparison of the payload for two `Normal` components. -/
def componentCmp (c d : Component) : Ordering :=
  match c, d with
  | Component.normal a, Component.normal b => bytesCmp a b
  | _, _ =>
    if componentRank c < componentRank d then Ordering.lt
    else if componentRank d < componentRank c then Ordering.gt
    else Ordering.eq

/-- Lexicographic comparison of component sequences, as
`Iterator::cmp` over `Path::components` (`Ord for Path`). -/
def componentsCmp : List Component → List Component → Ordering
  | [], [] => Ordering.eq
  | [], _ :: _ => Ordering.lt
  | _ :: _, [] => Ordering.gt
  | c :: cs, d :: ds =>
    match componentCmp c d with
    | Ordering.eq => componentsCmp cs ds
    | o => o

/-- Rust `Ord for Path`/`PathBuf`: compare the normalized component
sequences lexicographically. -/
def pathCmp (p q : Bytes) : Ordering := componentsCmp (components p) (components q)

/-- The bytes one later chunk (a maximal non-separator span that follows a
separator) contributes to the hasher stream of `Hash for Path`: empty
spans and exactly-`.` spans are skipped (they are what `components()`
normalizes away), every other span is written verbatim. -/
def chunkHashBytes (c : Bytes) : Bytes := if c = [] ∨ c = [46] then [] else c

/-- The hasher input of std's `Hash for Path` (the byte-chunk
implementation in `std::path`): walking the path bytes, every maximal
non-separator span is written verbatim except a span `.` that immediately
follows a separator, and after the spans the total number of bytes written
is fed as one final length write.  Span-wise: the first chunk of
`splitOnSep` is written as is (a leading `.` is written — only a `.`
after a separator is skipped), later chunks are written through
`chunkHashBytes`.  The stream carries no span boundaries and nothing for
a leading `/`, so unequal paths such as `/a` vs `a`, or `ab` vs `a/b`,
feed identical streams (see `pathHashStream_not_injective_demo`); equal
paths always feed equal streams (see `pathHashStream_eq_components`). -/
def pathHashStream (p : Bytes) : Bytes × Nat :=
  let written :=
    match splitOnSep p with
    | [] => []
    | f :: later => f ++ (later.map chunkHashBytes).flatten
  (written, written.length)

/-- Per-component contribution to the hasher stream: `RootDir` contributes
nothing, `CurDir` the single dot, `ParentDir` the two dots, `Normal c` its
bytes. -/
def componentHashBytes : Component → Bytes
  | Component.rootDir => []
  | Component.curDir => [46]
  | Component.parentDir => [46, 46]
  | Component.normal c => c

/-- The hasher stream computed from a normalized component sequence:
concatenated component contributions and their total length. -/
def streamOfComponents (comps : List Component) : Bytes × Nat :=
  let written := (comps.map componentHashBytes).flatten
  (written, written.length)

/-- Byte-lexicographic comparison reports `eq` exactly on equal byte
sequences. -/
theorem bytesCmp_eq_iff (a b : Bytes) : bytesCmp a b = Ordering.eq ↔ a = b := by
  induction a generalizing b with
  | nil => cases b <;> simp [bytesCmp]
  | cons x l₁ ih =>
    cases b with
    | nil => simp [bytesCmp]
    | cons y l₂ =>
      simp only [bytesCmp]
      split
      · simp; omega
      · split
        · simp; omega
        · simp [ih]; omega

/-- Component comparison reports `eq` exactly on equal components. -/
theorem componentCmp_eq_iff (c d : Component) : componentCmp c d = Ordering.eq ↔ c = d := by
  cases c <;> cases d <;>
    simp [componentCmp, componentRank, bytesCmp_eq_iff]

/-- Lexicographic component-sequence comparison reports `eq` exactly on
equal sequences, so Rust's `Ord for Path` agrees with its `PartialEq`. -/
theorem componentsCmp_eq_iff (xs ys : List Component) :
    componentsCmp xs ys = Ordering.eq ↔ xs = ys := by
  induction xs generalizing ys with
  | nil => cases ys <;> simp [componentsCmp]
  | cons c cs ih =>
    cases ys with
    | nil => simp [componentsCmp]
    | cons d ds =>
      simp only [componentsCmp]
      rcases hcd : componentCmp c d with _ | _ | _
      · have hne : c ≠ d := by
          intro he; subst he
          rw [(componentCmp_eq_iff c c).mpr rfl] at hcd
          cases hcd
        simp [hne]
      · have he : c = d := (componentCmp_eq_iff c d).mp hcd
        simp [he, ih]
      · have hne : c ≠ d := by
          intro he; subst he
          rw [(componentCmp_eq_iff c c).mpr rfl] at hcd
          cases hcd
        simp [hne]

/-- Unfolding of `splitOnSep` over one leading byte. -/
theorem splitOnSep_cons (b : Nat) (rest : Bytes) :
    splitOnSep (b :: rest) =
      if b = 47 then [] :: splitOnSep rest
      else
        match splitOnSep rest with
        | [] => [[b]]
        | s :: ss => (b :: s) :: ss := rfl

/-- Splitting always yields at least one (possibly empty) chunk. -/
theorem splitOnSep_ne_nil (l : Bytes) : splitOnSep l ≠ [] := by
  cases l with
  | nil => simp [splitOnSep]
  | cons b rest =>
    rw [splitOnSep_cons]
    split
    · simp
    · split <;> simp

/-- Hashing the components retained by `classifyChunk` writes the same
bytes as hashing the chunks through `chunkHashBytes`: dropped chunks
(empty, `.`) contribute nothing either way, and `..` contributes its own
two bytes. -/
theorem flatten_classify_eq (cs : List Bytes) :
    (((cs.filterMap classifyChunk).map componentHashBytes)).flatten =
      (cs.map chunkHashBytes).flatten := by
  induction cs with
  | nil => rfl
  | cons c cs ih =>
    by_cases h1 : c = []
    · subst h1; simpa [classifyChunk, chunkHashBytes] using ih
    · by_cases h2 : c = [46]
      · subst h2; simpa [classifyChunk, chunkHashBytes] using ih
      · by_cases h3 : c = [46, 46]
        · subst h3; simpa [classifyChunk, chunkHashBytes, componentHashBytes] using ih
        · simp [classifyChunk, chunkHashBytes, h1, h2, h3, componentHashBytes, ih]

/-- The hasher stream of `Hash for Path` is a function of the normalized
component sequence: the first chunk is the leading `CurDir`, `ParentDir`
or `Normal` component when the path is relative (and empty when it is
rooted, contributing nothing, like `RootDir`), and every later retained
chunk is exactly a retained component.  This is what makes the derived
hashing consistent with the component-based derived equality. -/
theorem pathHashStream_eq_components (p : Bytes) :
    pathHashStream p = streamOfComponents (components p) := by
  cases p with
  | nil => rfl
  | cons b rest =>
    obtain ⟨s, ss, hsplit⟩ : ∃ s ss, splitOnSep rest = s :: ss := by
      cases h : splitOnSep rest with
      | nil => exact absurd h (splitOnSep_ne_nil rest)
      | cons s ss => exact ⟨s, ss, rfl⟩
    by_cases hb : b = 47
    · subst hb
      have hsp : splitOnSep (47 :: rest) = [] :: s :: ss := by
        rw [splitOnSep_cons, if_pos rfl, hsplit]
      simp only [pathHashStream, streamOfComponents, components, hsp, List.head?_cons,
        Option.some.injEq]
      simp [flatten_classify_eq, ← hsplit, classifyChunk, chunkHashBytes, componentHashBytes]
    · have hsp : splitOnSep (b :: rest) = (b :: s) :: ss := by
        rw [splitOnSep_cons, if_neg hb, hsplit]
      by_cases hcur : b :: s = [46]
      · obtain ⟨hb46, hs⟩ : b = 46 ∧ s = [] := by
          constructor <;> · cases hcur; rfl
        subst hb46; subst hs
        simp only [pathHashStream, streamOfComponents, components, hsp, List.head?_cons,
          Option.some.injEq]
        simp [flatten_classify_eq, classifyChunk, chunkHashBytes, componentHashBytes]
      · simp only [pathHashStream, streamOfComponents, components, hsp, List.head?_cons,
          Option.some.injEq]
        simp [flatten_classify_eq, classifyChunk, chunkHashBytes, componentHashBytes, hb, hcur]

/-- The hasher stream is strictly coarser than path equality: `/a` vs `a`
and `ab` vs `a/b` are unequal paths that feed the hasher identical data,
because the stream encodes neither the root nor span boundaries. -/
theorem pathHashStream_not_injective_demo :
    pathHashStream [47, 97] = pathHashStream [97] ∧
    pathHashStream [97, 98] = pathHashStream [97, 47, 98] ∧
    components [47, 97] ≠ components [97] ∧
    components [97, 98] ≠ components [97, 47, 98] := by decide

/-- The I/O environment a run sees: the bytes waiting on standard input
and the file system as a partial map from path bytes to file contents. -/
structure Env where
  stdinData : Bytes
  fileData : Bytes → Option Bytes

/-- Strip one trailing carriage return (byte 13), as `std::io::Lines`
does after removing the `\n` of a line that ended in a newline. -/
def stripCR (l : Bytes) : Bytes :=
  if l.getLast? = some 13 then l.dropLast else l

/-- Accumulating pass of `linesOf`: `acc` holds the bytes of the current
line, reversed.  A byte 10 ends a line (the accumulated bytes, with a
trailing carriage return stripped); end of input yields the accumulated
bytes as a final line only when they are non-empty, with no stripping,
mirroring `BufRead::read_line` + the `std::io::Lines` trimming rule. -/
def linesAux (acc : Bytes) : List Nat → List Bytes
  | [] => if acc = [] then [] else [acc.reverse]
  | b :: rest =>
    if b = 10 then stripCR acc.reverse :: linesAux [] rest
    else linesAux (b :: acc) rest

/-- The sequence of lines `std::io::Lines` yields over the given content:
split at every newline, strip the terminator (and a carriage return before
it), and keep a final unterminated chunk only when non-empty. -/
def linesOf (content : Bytes) : List Bytes := linesAux [] content

/-- An input path that can refer to either standard input or a file system
path (`enum InputArg`). -/
inductive InputArg where
  | Stdin : InputArg
  | Path : Bytes → InputArg
deriving DecidableEq, Repr

namespace InputArg

/-- `InputArg::from_arg`: if the argument equals `Path::new("-")` under
Rust path equality, `Stdin`; otherwise `Path` wrapping the argument. -/
def from_arg (arg : Bytes) : InputArg :=
  if components arg = components dashBytes then InputArg.Stdin
  else InputArg.Path arg

/-- Derived `PartialEq for InputArg`: same variant, and for two `Path`s
equality of the inner `PathBuf`s (Rust path equality). -/
def rustEq : InputArg → InputArg → Bool
  | InputArg.Stdin, InputArg.Stdin => true
  | InputArg.Path p, InputArg.Path q => pathRustEq p q
  | _, _ => false

/-- `InputArg::is_stdin`: `self == &InputArg::Stdin`. -/
def is_stdin (v : InputArg) : Bool := rustEq v InputArg.Stdin

/-- `InputArg::is_path`: `matches!(self, InputArg::Path(_))`. -/
def is_path : InputArg → Bool
  | InputArg.Stdin => false
  | InputArg.Path _ => true

/-- `InputArg::path_ref`: `None` on `Stdin`, the inner path on `Path`. -/
def path_ref : InputArg → Option Bytes
  | InputArg.Stdin => none
  | InputArg.Path p => some p

/-- `InputArg::path_mut`: `None` on `Stdin`, the inner path on `Path`
(the mutable borrow's referent, identical selection to `path_ref`). -/
def path_mut : InputArg → Option Bytes
  | InputArg.Stdin => none
  | InputArg.Path p => some p

/-- `InputArg::into_path`: `None` on `Stdin`, the inner path on `Path`. -/
def into_path : InputArg → Option Bytes
  | InputArg.Stdin => none
  | InputArg.Path p => some p

/-- `Display for InputArg`: `Stdin` renders as the placeholder text
`<stdin>` under the alternate `{:#}` flag and as `-` otherwise; `Path p`
always renders as `p.display()`, the lossy UTF-8 decoding of `p`. -/
def display (alternate : Bool) : InputArg → Bytes
  | InputArg.Stdin =>
    if alternate then [60, 115, 116, 100, 105, 110, 62] else dashBytes
  | InputArg.Path p => utf8Lossy p

/-- `From<InputArg> for OsString`: `Stdin` becomes the literal `-`,
`Path p` becomes `p` unchanged. -/
def intoOsString : InputArg → Bytes
  | InputArg.Stdin => dashBytes
  | InputArg.Path p => p

/-- `Serialize for InputArg`: `Stdin` serializes as the string `-`;
`Path p` serializes as the inner `PathBuf`, which succeeds with the path's
text exactly when `p` is valid UTF-8 and otherwise fails with an encoding
error (`Path::to_str` returning `None`). -/
def serialize : InputArg → Except Unit Bytes
  | InputArg.Stdin => Except.ok dashBytes
  | InputArg.Path p =>
    if utf8Valid p then Except.ok p else Except.error ()

/-- `Deserialize for InputArg`: deserialize the string and feed it through
`InputArg::from_arg`. -/
def deserialize (s : Bytes) : InputArg := from_arg s

/-- Derived `Ord for InputArg`: variants compare in declaration order
(`Stdin` before `Path`); two `Path`s compare by `Ord for PathBuf`. -/
def cmp : InputArg → InputArg → Ordering
  | InputArg.Stdin, InputArg.Stdin => Ordering.eq
  | InputArg.Stdin, InputArg.Path _ => Ordering.lt
  | InputArg.Path _, InputArg.Stdin => Ordering.gt
  | InputArg.Path p, InputArg.Path q => pathCmp p q

/-- The data the derived `Hash for InputArg` feeds to the hasher: the
variant discriminant, then for `Path` the exact hasher input of
`Hash for Path` (the retained span bytes with no boundaries and the final
total-length write, `pathHashStream`); `Stdin` writes nothing beyond the
discriminant. -/
def hashKey : InputArg → Nat × Option (Bytes × Nat)
  | InputArg.Stdin => (0, none)
  | InputArg.Path p => (1, some (pathHashStream p))

/-- The derived `Default for InputArg`: the `#[default]` variant `Stdin`. -/
def defaultValue : InputArg := InputArg.Stdin

/-- Contents read by `InputArg::open`/`read`: all of standard input for
`Stdin`, the file at the path for `Path` (`none` = the I/O error of the
underlying open). -/
def readAll (env : Env) : InputArg → Option Bytes
  | InputArg.Stdin => some env.stdinData
  | InputArg.Path p => env.fileData p

/-- `InputArg::lines`: open the source (stdin or the file) and iterate its
lines with `BufRead::lines` semantics. -/
def lines (env : Env) (v : InputArg) : Option (List Bytes) :=
  (readAll env v).map linesOf

end InputArg

/-- An output path that can refer to either standard output or a file
system path (`enum OutputArg`). -/
inductive OutputArg where
  | Stdout : OutputArg
  | Path : Bytes → OutputArg
deriving DecidableEq, Repr

namespace OutputArg

/-- `OutputArg::from_arg`: if the argument equals `Path::new("-")` under
Rust path equality, `Stdout`; otherwise `Path` wrapping the argument. -/
def from_arg (arg : Bytes) : OutputArg :=
  if components arg = components dashBytes then OutputArg.Stdout
  else OutputArg.Path arg

/-- Derived `PartialEq for OutputArg`: same variant, and for two `Path`s
equality of the inner `PathBuf`s (Rust path equality). -/
def rustEq : OutputArg → OutputArg → Bool
  | OutputArg.Stdout, OutputArg.Stdout => true
  | OutputArg.Path p, OutputArg.Path q => pathRustEq p q
  | _, _ => false

/-- `OutputArg::is_stdout`: `self == &OutputArg::Stdout`. -/
def is_stdout (v : OutputArg) : Bool := rustEq v OutputArg.Stdout

/-- `OutputArg::is_path`: `matches!(self, OutputArg::Path(_))`. -/
def is_path : OutputArg → Bool
  | OutputArg.Stdout => false
  | OutputArg.Path _ => true

/-- `OutputArg::path_ref`: `None` on `Stdout`, the inner path on `Path`. -/
def path_ref : OutputArg → Option Bytes
  | OutputArg.Stdout => none
  | OutputArg.Path p => some p

/-- `OutputArg::path_mut`: `None` on `Stdout`, the inner path on `Path`
(the mutable borrow's referent, identical selection to `path_ref`). -/
def path_mut : OutputArg → Option Bytes
  | OutputArg.Stdout => none
  | OutputArg.Path p => some p

/-- `OutputArg::into_path`: `None` on `Stdout`, the inner path on `Path`. -/
def into_path : OutputArg → Option Bytes
  | OutputArg.Stdout => none
  | OutputArg.Path p => some p

/-- `Display for OutputArg`: `Stdout` renders as the placeholder text
`<stdout>` under the alternate `{:#}` flag and as `-` otherwise; `Path p`
always renders as `p.display()`, the lossy UTF-8 decoding of `p`. -/
def display (alternate : Bool) : OutputArg → Bytes
  | OutputArg.Stdout =>
    if alternate then [60, 115, 116, 100, 111, 117, 116, 62] else dashBytes
  | OutputArg.Path p => utf8Lossy p

/-- `From<OutputArg> for OsString`: `Stdout` becomes the literal `-`,
`Path p` becomes `p` unchanged. -/
def intoOsString : OutputArg → Bytes
  | OutputArg.Stdout => dashBytes
  | OutputArg.Path p => p

/-- `Serialize for OutputArg`: `Stdout` serializes as the string `-`;
`Path p` serializes as the inner `PathBuf`, which succeeds with the path's
text exactly when `p` is valid UTF-8 and otherwise fails with an encoding
error (`Path::to_str` returning `None`). -/
def serialize : OutputArg → Except Unit Bytes
  | OutputArg.Stdout => Except.ok dashBytes
  | OutputArg.Path p =>
    if utf8Valid p then Except.ok p else Except.error ()

/-- `Deserialize for OutputArg`: deserialize the string and feed it
through `OutputArg::from_arg`. -/
def deserialize (s : Bytes) : OutputArg := from_arg s

/-- Derived `Ord for OutputArg`: variants compare in declaration order
(`Stdout` before `Path`); two `Path`s compare by `Ord for PathBuf`. -/
def cmp : OutputArg → OutputArg → Ordering
  | OutputArg.Stdout, OutputArg.Stdout => Ordering.eq
  | OutputArg.Stdout, OutputArg.Path _ => Ordering.lt
  | OutputArg.Path _, OutputArg.Stdout => Ordering.gt
  | OutputArg.Path p, OutputArg.Path q => pathCmp p q

/-- The data the derived `Hash for OutputArg` feeds to the hasher: the
variant discriminant, then for `Path` the exact hasher input of
`Hash for Path` (`pathHashStream`); `Stdout` writes nothing beyond the
discriminant. -/
def hashKey : OutputArg → Nat × Option (Bytes × Nat)
  | OutputArg.Stdout => (0, none)
  | OutputArg.Path p => (1, some (pathHashStream p))

/-- The derived `Default for OutputArg`: the `#[default]` variant
`Stdout`. -/
def defaultValue : OutputArg := OutputArg.Stdout

end OutputArg


/-- C1: the spec and the `from_arg` doc comment promise classification by
byte-for-byte equality with `-`, but the code compares with
`arg == Path::new("-")`, Rust path equality over normalized components: the
token hyphen-then-slash (bytes `[45, 47]`) (bytes `[45, 47]`) differs from `-` byte-for-byte yet its
component sequence normalizes to that of `-`, so both parsers classify it
as the standard stream instead of a path wrapping those bytes verbatim. -/
theorem c1_sentinel_check_divergence :
    ([45, 47] : Bytes) ≠ dashBytes ∧
    components [45, 47] = components dashBytes ∧
    InputArg.from_arg [45, 47] = InputArg.Stdin ∧
    OutputArg.from_arg [45, 47] = OutputArg.Stdout := by decide

/-- C2 counterexample: the unrestricted round-trip `render(parse(t)) = t`
fails.  For the non-UTF-8 token `[255]`, parsing yields a `Path` variant
but the default rendering (`Path::display()`) is lossy and produces the
replacement character instead of byte 255; for the hyphen-then-slash token `[45, 47]`, parsing
yields the stream variant, which renders as the single hyphen. -/
theorem c2_roundtrip_counterexample :
    InputArg.display false (InputArg.from_arg [255]) ≠ [255] ∧
    OutputArg.display false (OutputArg.from_arg [255]) ≠ [255] ∧
    InputArg.display false (InputArg.from_arg [45, 47]) ≠ [45, 47] := by decide

/-- C2 (amended): for every valid-UTF-8 token `t`, the default rendering
of the parsed value reproduces `t` exactly whenever `t` is not path-equal
to `-`; when it is path-equal to `-` (in particular for `t = "-"` itself)
the parsed value is the standard-stream variant and renders as exactly the
single hyphen. -/
theorem c2_roundtrip_amended (t : Bytes) (h : utf8Valid t = true) :
    InputArg.display false (InputArg.from_arg t) =
      (if components t = components dashBytes then dashBytes else t) ∧
    OutputArg.display false (OutputArg.from_arg t) =
      (if components t = components dashBytes then dashBytes else t) := by
  by_cases hc : components t = components dashBytes
  · simp [InputArg.from_arg, OutputArg.from_arg, InputArg.display, OutputArg.display, hc]
  · simp [InputArg.from_arg, OutputArg.from_arg, InputArg.display, OutputArg.display, hc,
      utf8Valid_lossy_id t h]

/-- C2 witness: the amended round-trip at the concrete valid-UTF-8 token
`ab` (bytes `[97, 98]`), which is not path-equal to `-`. -/
theorem c2_roundtrip_witness :
    InputArg.display false (InputArg.from_arg [97, 98]) =
      (if components [97, 98] = components dashBytes then dashBytes else [97, 98]) ∧
    OutputArg.display false (OutputArg.from_arg [97, 98]) =
      (if components [97, 98] = components dashBytes then dashBytes else [97, 98]) :=
  c2_roundtrip_amended [97, 98] (by decide)

/-- C3: on both types, `path_ref`, `path_mut` and `into_path` return
`none` exactly on the standard-stream variant, and on the `Path` variant
return the wrapped path unchanged; no error outcome exists, absence is the
whole contract. -/
theorem c3_path_accessor_absence_law :
    (∀ v : InputArg,
      (v.path_ref = none ↔ v = InputArg.Stdin) ∧
      (v.path_mut = none ↔ v = InputArg.Stdin) ∧
      (v.into_path = none ↔ v = InputArg.Stdin)) ∧
    (∀ p : Bytes,
      (InputArg.Path p).path_ref = some p ∧
      (InputArg.Path p).path_mut = some p ∧
      (InputArg.Path p).into_path = some p) ∧
    (∀ w : OutputArg,
      (w.path_ref = none ↔ w = OutputArg.Stdout) ∧
      (w.path_mut = none ↔ w = OutputArg.Stdout) ∧
      (w.into_path = none ↔ w = OutputArg.Stdout)) ∧
    (∀ p : Bytes,
      (OutputArg.Path p).path_ref = some p ∧
      (OutputArg.Path p).path_mut = some p ∧
      (OutputArg.Path p).into_path = some p) := by
  refine ⟨fun v => ?_, fun p => ⟨rfl, rfl, rfl⟩, fun w => ?_, fun p => ⟨rfl, rfl, rfl⟩⟩
  · cases v <;> simp [InputArg.path_ref, InputArg.path_mut, InputArg.into_path]
  · cases w <;> simp [OutputArg.path_ref, OutputArg.path_mut, OutputArg.into_path]

/-- C4: parsing is total — every token classifies as the stream variant or
as the path variant wrapping that token, with no failure outcome — and on
every constructed value the predicates `is_stdin`/`is_stdout` and
`is_path` are mutually exclusive and exhaustive. -/
theorem c4_total_parse_exclusive_predicates :
    (∀ t : Bytes,
      InputArg.from_arg t = InputArg.Stdin ∨ InputArg.from_arg t = InputArg.Path t) ∧
    (∀ v : InputArg,
      (v.is_stdin = true ∧ v.is_path = false) ∨ (v.is_stdin = false ∧ v.is_path = true)) ∧
    (∀ t : Bytes,
      OutputArg.from_arg t = OutputArg.Stdout ∨ OutputArg.from_arg t = OutputArg.Path t) ∧
    (∀ w : OutputArg,
      (w.is_stdout = true ∧ w.is_path = false) ∨ (w.is_stdout = false ∧ w.is_path = true)) := by
  refine ⟨fun t => ?_, fun v => ?_, fun t => ?_, fun w => ?_⟩
  · by_cases hc : components t = components dashBytes <;>
      simp [InputArg.from_arg, hc]
  · cases v <;> simp [InputArg.is_stdin, InputArg.rustEq, InputArg.is_path]
  · by_cases hc : components t = components dashBytes <;>
      simp [OutputArg.from_arg, hc]
  · cases w <;> simp [OutputArg.is_stdout, OutputArg.rustEq, OutputArg.is_path]

/-- C5: conversion back to raw platform text maps the stream variant to
the literal `-` and the `Path` variant to its byte content unchanged (also
for non-UTF-8 content, since no decoding happens), and re-parsing the
converted text of any parsed value reproduces that value. -/
theorem c5_osstring_conversion_lossless :
    InputArg.intoOsString InputArg.Stdin = dashBytes ∧
    (∀ p : Bytes, InputArg.intoOsString (InputArg.Path p) = p) ∧
    (∀ t : Bytes,
      InputArg.from_arg (InputArg.intoOsString (InputArg.from_arg t)) = InputArg.from_arg t) ∧
    OutputArg.intoOsString OutputArg.Stdout = dashBytes ∧
    (∀ p : Bytes, OutputArg.intoOsString (OutputArg.Path p) = p) ∧
    (∀ t : Bytes,
      OutputArg.from_arg (OutputArg.intoOsString (OutputArg.from_arg t)) = OutputArg.from_arg t) := by
  refine ⟨rfl, fun p => rfl, fun t => ?_, rfl, fun p => rfl, fun t => ?_⟩
  · by_cases hc : components t = components dashBytes <;>
      simp [InputArg.from_arg, InputArg.intoOsString, hc]
  · by_cases hc : components t = components dashBytes <;>
      simp [OutputArg.from_arg, OutputArg.intoOsString, hc]

/-- C6: the stream variants serialize as the string `-`, a `Path` variant
serializes as its text when its bytes are valid UTF-8 and fails with an
encoding error otherwise, and deserialization feeds any string back
through `from_arg` — so `-` deserializes to the stream variant and the dot-slash-hyphen
string `[46, 47, 45]` deserializes to the path variant containing it. -/
theorem c6_serde_wire_format (p q : Bytes) (hp : utf8Valid p = true)
    (hq : utf8Valid q = false) :
    InputArg.serialize InputArg.Stdin = Except.ok dashBytes ∧
    InputArg.serialize (InputArg.Path p) = Except.ok p ∧
    InputArg.serialize (InputArg.Path q) = Except.error () ∧
    (∀ s : Bytes, InputArg.deserialize s = InputArg.from_arg s) ∧
    InputArg.deserialize dashBytes = InputArg.Stdin ∧
    InputArg.deserialize [46, 47, 45] = InputArg.Path [46, 47, 45] ∧
    OutputArg.serialize OutputArg.Stdout = Except.ok dashBytes ∧
    OutputArg.serialize (OutputArg.Path p) = Except.ok p ∧
    OutputArg.serialize (OutputArg.Path q) = Except.error () ∧
    (∀ s : Bytes, OutputArg.deserialize s = OutputArg.from_arg s) ∧
    OutputArg.deserialize dashBytes = OutputArg.Stdout ∧
    OutputArg.deserialize [46, 47, 45] = OutputArg.Path [46, 47, 45] := by
  refine ⟨rfl, ?_, ?_, fun s => rfl, by decide, by decide,
    rfl, ?_, ?_, fun s => rfl, by decide, by decide⟩ <;>
    simp [InputArg.serialize, OutputArg.serialize, hp, hq]

/-- C6 witness: the wire format at the concrete valid path `a` (bytes
`[97]`) and the concrete invalid path `[255]`. -/
theorem c6_serde_wire_format_witness :
    InputArg.serialize InputArg.Stdin = Except.ok dashBytes ∧
    InputArg.serialize (InputArg.Path [97]) = Except.ok [97] ∧
    InputArg.serialize (InputArg.Path [255]) = Except.error () ∧
    (∀ s : Bytes, InputArg.deserialize s = InputArg.from_arg s) ∧
    InputArg.deserialize dashBytes = InputArg.Stdin ∧
    InputArg.deserialize [46, 47, 45] = InputArg.Path [46, 47, 45] ∧
    OutputArg.serialize OutputArg.Stdout = Except.ok dashBytes ∧
    OutputArg.serialize (OutputArg.Path [97]) = Except.ok [97] ∧
    OutputArg.serialize (OutputArg.Path [255]) = Except.error () ∧
    (∀ s : Bytes, OutputArg.deserialize s = OutputArg.from_arg s) ∧
    OutputArg.deserialize dashBytes = OutputArg.Stdout ∧
    OutputArg.deserialize [46, 47, 45] = OutputArg.Path [46, 47, 45] :=
  c6_serde_wire_format [97] [255] (by decide) (by decide)

/-- C7: the default values are `Stdin` and `Stdout`, and the default
rendering of each default value parses back to that same standard-stream
variant. -/
theorem c7_default_is_stream_and_roundtrips :
    InputArg.defaultValue = InputArg.Stdin ∧
    OutputArg.defaultValue = OutputArg.Stdout ∧
    InputArg.from_arg (InputArg.display false InputArg.defaultValue) = InputArg.defaultValue ∧
    OutputArg.from_arg (OutputArg.display false OutputArg.defaultValue) = OutputArg.defaultValue := by
  decide

/-- C8: reading the content `1\nTo\nTre\nFour\n\n` through
`InputArg::lines` yields exactly the five lines `1`, `To`, `Tre`, `Four`
and one empty line, in order, with terminators stripped — both when the
value is the stream variant fed that content on standard input and when it
is a path variant naming a file with that content. -/
theorem c8_lines_scenario (env : Env) (p : Bytes)
    (hs : env.stdinData = [49, 10, 84, 111, 10, 84, 114, 101, 10, 70, 111, 117, 114, 10, 10])
    (hf : env.fileData p = some [49, 10, 84, 111, 10, 84, 114, 101, 10, 70, 111, 117, 114, 10, 10]) :
    InputArg.lines env InputArg.Stdin =
      some [[49], [84, 111], [84, 114, 101], [70, 111, 117, 114], []] ∧
    InputArg.lines env (InputArg.Path p) =
      some [[49], [84, 111], [84, 114, 101], [70, 111, 117, 114], []] := by
  constructor <;> simp [InputArg.lines, InputArg.readAll, hs, hf] <;> decide

/-- C8 witness: the scenario at a concrete environment whose standard
input holds the content and whose file system maps every path (in
particular `f`, bytes `[102]`) to the same content. -/
theorem c8_lines_scenario_witness :
    InputArg.lines
        ⟨[49, 10, 84, 111, 10, 84, 114, 101, 10, 70, 111, 117, 114, 10, 10],
          fun _ => some [49, 10, 84, 111, 10, 84, 114, 101, 10, 70, 111, 117, 114, 10, 10]⟩
        InputArg.Stdin =
      some [[49], [84, 111], [84, 114, 101], [70, 111, 117, 114], []] ∧
    InputArg.lines
        ⟨[49, 10, 84, 111, 10, 84, 114, 101, 10, 70, 111, 117, 114, 10, 10],
          fun _ => some [49, 10, 84, 111, 10, 84, 114, 101, 10, 70, 111, 117, 114, 10, 10]⟩
        (InputArg.Path [102]) =
      some [[49], [84, 111], [84, 114, 101], [70, 111, 117, 114], []] :=
  c8_lines_scenario _ [102] rfl rfl

/-- C9: the value `Path("-")` is directly constructible; its default
rendering and its serialized form are both exactly `-`, so re-parsing or
deserializing its own rendering yields the standard-stream variant and not
the original value: the parse-then-render round-trip does not extend to a
render-then-parse round-trip over all constructible values. -/
theorem c9_path_dash_reparse_collapse :
    InputArg.display false (InputArg.Path dashBytes) = dashBytes ∧
    InputArg.serialize (InputArg.Path dashBytes) = Except.ok dashBytes ∧
    InputArg.from_arg (InputArg.display false (InputArg.Path dashBytes)) = InputArg.Stdin ∧
    InputArg.from_arg (InputArg.display false (InputArg.Path dashBytes)) ≠
      InputArg.Path dashBytes ∧
    InputArg.deserialize dashBytes = InputArg.Stdin ∧
    OutputArg.display false (OutputArg.Path dashBytes) = dashBytes ∧
    OutputArg.serialize (OutputArg.Path dashBytes) = Except.ok dashBytes ∧
    OutputArg.from_arg (OutputArg.display false (OutputArg.Path dashBytes)) = OutputArg.Stdout ∧
    OutputArg.from_arg (OutputArg.display false (OutputArg.Path dashBytes)) ≠
      OutputArg.Path dashBytes ∧
    OutputArg.deserialize dashBytes = OutputArg.Stdout :=
  ⟨rfl, rfl, by decide, by decide, by decide,
   rfl, rfl, by decide, by decide, by decide⟩

/-- C10: under the derived ordering the standard-stream variant is the
strict minimum — `Stdin`/`Stdout` compares `lt` against every `Path` and
never `gt` against anything, with `eq` exactly against itself — and the
derived implementations are mutually consistent: equality holds iff
comparison reports `eq`, and equal values feed the hasher identical data
(the hasher stream of `Hash for Path` is a function of the normalized
components, by `pathHashStream_eq_components`; the converse is not part
of the contract, since that stream drops span boundaries and the root). -/
theorem c10_stream_is_order_minimum :
    (∀ p : Bytes, InputArg.cmp InputArg.Stdin (InputArg.Path p) = Ordering.lt) ∧
    (∀ v : InputArg, InputArg.cmp InputArg.Stdin v ≠ Ordering.gt) ∧
    (∀ v : InputArg, InputArg.cmp InputArg.Stdin v = Ordering.eq ↔ v = InputArg.Stdin) ∧
    (∀ v w : InputArg, InputArg.rustEq v w = true ↔ InputArg.cmp v w = Ordering.eq) ∧
    (∀ v w : InputArg, InputArg.rustEq v w = true → InputArg.hashKey v = InputArg.hashKey w) ∧
    (∀ p : Bytes, OutputArg.cmp OutputArg.Stdout (OutputArg.Path p) = Ordering.lt) ∧
    (∀ w : OutputArg, OutputArg.cmp OutputArg.Stdout w ≠ Ordering.gt) ∧
    (∀ w : OutputArg, OutputArg.cmp OutputArg.Stdout w = Ordering.eq ↔ w = OutputArg.Stdout) ∧
    (∀ v w : OutputArg, OutputArg.rustEq v w = true ↔ OutputArg.cmp v w = Ordering.eq) ∧
    (∀ v w : OutputArg, OutputArg.rustEq v w = true → OutputArg.hashKey v = OutputArg.hashKey w) := by
  refine ⟨fun p => rfl, fun v => ?_, fun v => ?_, fun v w => ?_, fun v w => ?_,
    fun p => rfl, fun w => ?_, fun w => ?_, fun v w => ?_, fun v w => ?_⟩
  · cases v <;> simp [InputArg.cmp]
  · cases v <;> simp [InputArg.cmp]
  · cases v <;> cases w <;>
      simp [InputArg.cmp, InputArg.rustEq, pathRustEq, pathCmp, componentsCmp_eq_iff]
  · cases v with
    | Stdin => cases w <;> simp [InputArg.rustEq, InputArg.hashKey]
    | Path p =>
      cases w with
      | Stdin => simp [InputArg.rustEq]
      | Path q =>
        intro h
        have hc : components p = components q := by
          simpa [InputArg.rustEq, pathRustEq] using h
        simp [InputArg.hashKey, pathHashStream_eq_components, hc]
  · cases w <;> simp [OutputArg.cmp]
  · cases w <;> simp [OutputArg.cmp]
  · cases v <;> cases w <;>
      simp [OutputArg.cmp, OutputArg.rustEq, pathRustEq, pathCmp, componentsCmp_eq_iff]
  · cases v with
    | Stdout => cases w <;> simp [OutputArg.rustEq, OutputArg.hashKey]
    | Path p =>
      cases w with
      | Stdout => simp [OutputArg.rustEq]
      | Path q =>
        intro h
        have hc : components p = components q := by
          simpa [OutputArg.rustEq, pathRustEq] using h
        simp [OutputArg.hashKey, pathHashStream_eq_components, hc]

end Patharg
